import Mathlib

/-!
# Serf command-line front end (`cli/cli.go`)

A shallow embedding of the `CLI` type of `cli/cli.go` and of its methods
`IsHelp`, `Run`, `Subcommand`, `printHelp` and `processArgs`.

Modelling conventions.

* A Go `string` is modelled by a Lean `String`.  The only byte-level operation of the
  source is `arg[0] != '-'`; the byte `'-'` is ASCII, so byte 0 of a UTF-8 text is `'-'`
  exactly when its first character is `'-'`.
* A method with pointer receiver `c *CLI` is a function from the state before the call
  to the state after it, together with the returned value.
* A run-time panic (here: `arg[0]` on a zero-length string, "index out of range") is the
  outcome `none`; a call that returns is `some (value, state)`.  A panic is not recovered
  inside the package, so the state after a panic is not observable and is not modelled.
* `sync.Once` is the one-bit state `once` (`false` = not yet computed, `true` = computed).
-/

namespace Serf

/-- The source's `type CommandFactory func() (Command, error)`.  The interface `Command`
is declared outside `cli.go` and is a parameter of the development; a failing factory
is `Except.error`. -/
def CommandFactory (Command : Type) : Type := Unit → Except String Command

/-- Modelled from the spec: the interface `Ui` is declared outside `cli.go`; the spec
describes it as an opaque output sink "with at least an error-line operation" that
"accepts a single string".  The sink is modelled by the sequence of strings passed to
its `Error` method so far, oldest first; `Error` is assumed to return normally. -/
abbrev Ui : Type := List String

/-- The method `Ui.Error(msg)`: record one more call on the sink. -/
def Ui.Error (ui : Ui) (msg : String) : Ui := ui ++ [msg]

/-- The source's `struct CLI`.  `Commands` is a Go `map[string]CommandFactory`, modelled
as an association list read with `List.lookup` (a nil map is the empty list). -/
structure CLI (Command : Type) where
  Args : List String
  Commands : List (String × CommandFactory Command)
  Ui : Ui
  once : Bool
  isHelp : Bool
  subcommand : String

/-- A `CLI` value as a caller of the package can build it: `Args` and `Commands` are
chosen by the caller, the unexported fields hold Go's zero values, and the sink has
received no call yet. -/
def CLI.fresh (Command : Type) (args : List String)
    (commands : List (String × CommandFactory Command)) : CLI Command :=
  { Args := args, Commands := commands, Ui := [], once := false, isHelp := false,
    subcommand := "" }

/-- Go's index expression `s[0]`: the first element of `s`, or a run-time panic
(`none`) when `s` has length zero. -/
def index0 (s : String) : Option Char := s.data.head?

/-- One iteration of the `for _, arg := range c.Args` loop of `processArgs`
(cli.go lines 67-77).  The conjunction `c.subcommand == "" && arg[0] != '-'` is
evaluated left to right, so `arg[0]` is only evaluated when `c.subcommand` is empty. -/
def processArg {Command : Type} (c : CLI Command) (arg : String) : Option (CLI Command) :=
  if arg = "-h" ∨ arg = "--help" then
    some { c with isHelp := true }
  else if c.subcommand = "" then
    match index0 arg with
    | none => none
    | some b => if b ≠ '-' then some { c with subcommand := arg } else some c
  else
    some c

/-- The loop of `processArgs` over the remaining arguments; a panic in one iteration
ends the loop. -/
def processArgsLoop {Command : Type} (c : CLI Command) : List String → Option (CLI Command)
  | [] => some c
  | arg :: rest =>
    match processArg c arg with
    | none => none
    | some c' => processArgsLoop c' rest

/-- The method `processArgs` (cli.go lines 65-79). -/
def CLI.processArgs {Command : Type} (c : CLI Command) : Option (CLI Command) :=
  processArgsLoop c c.Args

/-- The call `c.once.Do(c.processArgs)`: the function runs only when no earlier call has
completed, and the guard is set once it has run. -/
def CLI.onceDo {Command : Type} (c : CLI Command) : Option (CLI Command) :=
  if c.once then some c
  else
    match c.processArgs with
    | none => none
    | some c' => some { c' with once := true }

/-- The method `IsHelp` (cli.go lines 26-29). -/
def CLI.IsHelp {Command : Type} (c : CLI Command) : Option (Bool × CLI Command) :=
  match c.onceDo with
  | none => none
  | some c' => some (c'.isHelp, c')

/-- The method `Subcommand` (cli.go lines 53-56). -/
def CLI.Subcommand {Command : Type} (c : CLI Command) : Option (String × CLI Command) :=
  match c.onceDo with
  | none => none
  | some c' => some (c'.subcommand, c')

/-- The method `printHelp` (cli.go lines 58-63): two calls of `Ui.Error`. -/
def CLI.printHelp {Command : Type} (c : CLI Command) : CLI Command :=
  { c with
    Ui := (c.Ui.Error "usage: serf [--version] [--help] <command> [<args>]\n").Error
      "Available commands are:" }

/-- The method `Run` (cli.go lines 32-48).  The result is the pair of the exit code and
the Go `error` (`none` is `nil`).  In `!ok || c.Subcommand() == ""` the second call of
`Subcommand` is only made when `ok` holds. -/
def CLI.Run {Command : Type} (c : CLI Command) :
    Option ((Int × Option String) × CLI Command) :=
  match c.IsHelp with
  | none => none
  | some (true, c1) => some ((1, none), c1.printHelp)
  | some (false, c1) =>
    match c1.Subcommand with
    | none => none
    | some (name, c2) =>
      match c2.Commands.lookup name with
      | none => some ((1, none), c2.printHelp)
      | some _ =>
        match c2.Subcommand with
        | none => none
        | some (name2, c3) =>
          if name2 = "" then some ((1, none), c3.printHelp) else some ((0, none), c3)

/-! ## Specification-side vocabulary -/

/-- The token starts with the flag character `'-'` (a zero-length token does not). -/
def startsWithDash (t : String) : Bool := decide (t.data.head? = some '-')

/-- The token is exactly one of the two help flags. -/
def isHelpFlag (t : String) : Bool := decide (t = "-h" ∨ t = "--help")

/-- The spec's `ResolvedSubcommand(A)`: the first token of `A`, in list order, that does
not start with `'-'`, and the empty string when there is none. -/
def firstPositional (A : List String) : String :=
  (A.find? (fun t => !startsWithDash t)).getD ""

/-- The spec's `HelpRequested(A)`: some token of `A` is exactly `-h` or `--help`. -/
def helpRequested (A : List String) : Bool := A.any isHelpFlag

/-- The view of a state that classification reads and writes. -/
def CLI.cache {Command : Type} (c : CLI Command) : Bool × String := (c.isHelp, c.subcommand)

/-- The registry has an entry for the key. -/
def registered {Command : Type} (commands : List (String × CommandFactory Command))
    (name : String) : Prop :=
  name ∈ commands.map Prod.fst

/-- The three exported operations of a `CLI`. -/
inductive Op where
  | isHelp
  | subcommand
  | run
  deriving DecidableEq, Repr

/-- The value returned by an exported operation. -/
inductive Ret where
  | bool (b : Bool)
  | str (s : String)
  | exit (code : Int) (err : Option String)
  deriving DecidableEq, Repr

/-- One call of an exported operation on a `CLI`. -/
def CLI.call {Command : Type} (c : CLI Command) : Op → Option (Ret × CLI Command)
  | .isHelp => c.IsHelp.map (fun r => (Ret.bool r.1, r.2))
  | .subcommand => c.Subcommand.map (fun r => (Ret.str r.1, r.2))
  | .run => c.Run.map (fun r => (Ret.exit r.1.1 r.1.2, r.2))

/-- A sequence of calls on one `CLI`, in order, with the list of returned values. -/
def CLI.calls {Command : Type} (c : CLI Command) : List Op → Option (List Ret × CLI Command)
  | [] => some ([], c)
  | op :: ops =>
    match c.call op with
    | none => none
    | some (r, c') =>
      match c'.calls ops with
      | none => none
      | some (rs, c'') => some (r :: rs, c'')

/-- The two strings `printHelp` passes to `Ui.Error`, in order. -/
def helpBanner : List String :=
  ["usage: serf [--version] [--help] <command> [<args>]\n", "Available commands are:"]

/-- The part of `Run` after classification (cli.go lines 34-47), on a state whose
classification is cached: help is printed when help was requested, when the lookup
fails, or when the subcommand is blank. -/
def CLI.decision {Command : Type} (c : CLI Command) : (Int × Option String) × CLI Command :=
  if c.isHelp = true ∨ (c.Commands.lookup c.subcommand).isSome = false ∨ c.subcommand = "" then
    ((1, none), c.printHelp)
  else
    ((0, none), c)

/-- The value an operation returns on a state whose classification is cached. -/
def CLI.answer {Command : Type} (c : CLI Command) : Op → Ret
  | .isHelp => Ret.bool c.isHelp
  | .subcommand => Ret.str c.subcommand
  | .run => Ret.exit c.decision.1.1 c.decision.1.2

/-- What a caller observes of a finished `Run`: exit code, error, and the calls the sink
has received. -/
def CLI.observe {Command : Type} (r : (Int × Option String) × CLI Command) :
    (Int × Option String) × List String :=
  (r.1, r.2.Ui)

/-- The argument list with the token `f` inserted at position `i`: before the token
that had index `i`, and at the end when `i` is the length of the list or more. -/
def insertAt (A : List String) (i : Nat) (f : String) : List String :=
  A.take i ++ f :: A.drop i

/-! ## Lemmas on one loop iteration and on the loop -/

section Lemmas

variable {Command : Type}

theorem isHelpFlag_startsWithDash {t : String} (h : isHelpFlag t = true) :
    startsWithDash t = true := by
  simp only [isHelpFlag, decide_eq_true_eq] at h
  rcases h with h | h <;> subst h <;> decide

theorem index0_eq_none_iff (t : String) : index0 t = none ↔ t = "" := by
  rcases t with ⟨l⟩
  cases l with
  | nil => simp [index0]
  | cons a l =>
    constructor
    · intro h
      simp [index0] at h
    · intro h
      exact absurd (congrArg String.data h) (by simp)

theorem processArg_help (c : CLI Command) {arg : String} (h : isHelpFlag arg = true) :
    processArg c arg = some { c with isHelp := true } := by
  simp only [isHelpFlag, decide_eq_true_eq] at h
  simp [processArg, h]

theorem processArg_set (c : CLI Command) {arg : String} (h : c.subcommand ≠ "")
    (hh : isHelpFlag arg = false) : processArg c arg = some c := by
  simp only [isHelpFlag, decide_eq_false_iff_not] at hh
  simp [processArg, h, hh]

theorem processArg_unset (c : CLI Command) {arg : String} (h : c.subcommand = "")
    (hh : isHelpFlag arg = false) :
    processArg c arg =
      match index0 arg with
      | none => none
      | some b => if b ≠ '-' then some { c with subcommand := arg } else some c := by
  simp only [isHelpFlag, decide_eq_false_iff_not] at hh
  simp [processArg, h, hh]

/-- One iteration changes nothing but the two cached fields. -/
theorem processArg_frame {c c' : CLI Command} {arg : String} (h : processArg c arg = some c') :
    c'.Args = c.Args ∧ c'.Commands = c.Commands ∧ c'.Ui = c.Ui ∧ c'.once = c.once := by
  unfold processArg at h
  split at h
  · cases h; simp
  · split at h
    · split at h
      · cases h
      · split at h <;> cases h <;> simp
    · cases h; simp

theorem processArgsLoop_frame {args : List String} :
    ∀ {c c' : CLI Command}, processArgsLoop c args = some c' →
      c'.Args = c.Args ∧ c'.Commands = c.Commands ∧ c'.Ui = c.Ui ∧ c'.once = c.once := by
  induction args with
  | nil => intro c c' h; simp only [processArgsLoop, Option.some.injEq] at h; subst h; simp
  | cons a rest ih =>
    intro c c' h
    simp only [processArgsLoop] at h
    cases h1 : processArg c a with
    | none => rw [h1] at h; cases h
    | some c1 =>
      rw [h1] at h
      have f1 := processArg_frame h1
      have f2 := ih h
      exact ⟨f2.1.trans f1.1, f2.2.1.trans f1.2.1, f2.2.2.1.trans f1.2.2.1,
        f2.2.2.2.trans f1.2.2.2⟩

/-- Once a subcommand is stored, the rest of the loop cannot panic and only records
help flags. -/
theorem processArgsLoop_set (args : List String) :
    ∀ c : CLI Command, c.subcommand ≠ "" →
      processArgsLoop c args = some { c with isHelp := c.isHelp || helpRequested args } := by
  induction args with
  | nil => intro c _; simp [processArgsLoop, helpRequested]
  | cons a rest ih =>
    intro c hc
    cases hh : isHelpFlag a with
    | true =>
      simp only [processArgsLoop, processArg_help c hh]
      rw [ih { c with isHelp := true } hc]
      simp [helpRequested, hh]
    | false =>
      simp only [processArgsLoop, processArg_set c hc hh]
      rw [ih c hc]
      simp [helpRequested, hh]

/-- The loop over tokens that are all non-empty returns, and computes the two
specification functions. -/
theorem processArgsLoop_eq (args : List String) :
    ∀ c : CLI Command, (∀ t ∈ args, t ≠ "") →
      processArgsLoop c args =
        some { c with
          isHelp := c.isHelp || helpRequested args
          subcommand := if c.subcommand = "" then firstPositional args else c.subcommand } := by
  induction args with
  | nil =>
    intro c _
    obtain ⟨a1, a2, a3, a4, a5, a6⟩ := c
    simp only [processArgsLoop, helpRequested, firstPositional, List.any_nil, Bool.or_false,
      List.find?_nil, Option.getD_none, Option.some.injEq, CLI.mk.injEq, true_and]
    split
    · next h => exact h
    · rfl
  | cons a rest ih =>
    intro c hne
    have ha : a ≠ "" := hne a (List.mem_cons_self _ _)
    have hrest : ∀ t ∈ rest, t ≠ "" := fun t ht => hne t (List.mem_cons_of_mem _ ht)
    cases hh : isHelpFlag a with
    | true =>
      have hd := isHelpFlag_startsWithDash hh
      simp only [processArgsLoop, processArg_help c hh]
      rw [ih _ hrest]
      simp [helpRequested, firstPositional, hh, hd]
    | false =>
      by_cases hc : c.subcommand = ""
      · simp only [processArgsLoop, processArg_unset c hc hh]
        cases hi : index0 a with
        | none => exact absurd ((index0_eq_none_iff a).1 hi) ha
        | some b =>
          have hb : a.data.head? = some b := hi
          by_cases hdash : b = '-'
          · subst hdash
            simp only [ne_eq, not_true_eq_false, if_false]
            rw [ih _ hrest]
            simp [helpRequested, firstPositional, hh, hc, startsWithDash, hb]
          · simp only [ne_eq, hdash, not_false_eq_true, if_true]
            rw [ih _ hrest]
            simp [helpRequested, firstPositional, hh, ha, hc, startsWithDash, hb, hdash]
      · simp only [processArgsLoop, processArg_set c hc hh]
        rw [ih _ hrest]
        simp [helpRequested, hh, hc]

/-- The loop over a concatenation is the loop over the first part followed by the loop
over the second part. -/
theorem processArgsLoop_append (A B : List String) :
    ∀ c : CLI Command,
      processArgsLoop c (A ++ B) =
        match processArgsLoop c A with
        | none => none
        | some c' => processArgsLoop c' B := by
  induction A with
  | nil => intro c; simp [processArgsLoop]
  | cons a rest ih =>
    intro c
    simp only [List.cons_append, processArgsLoop]
    cases processArg c a with
    | none => rfl
    | some c1 => exact ih c1

/-- One iteration reads and writes only the cached pair. -/
theorem processArg_cache {C1 C2 : Type} (c1 : CLI C1) (c2 : CLI C2) (arg : String)
    (h : c1.cache = c2.cache) :
    (processArg c1 arg).map CLI.cache = (processArg c2 arg).map CLI.cache := by
  simp only [CLI.cache, Prod.mk.injEq] at h
  obtain ⟨h1, h2⟩ := h
  unfold processArg
  rw [h2]
  split
  · simp [CLI.cache, h2]
  · split
    · cases index0 arg with
      | none => rfl
      | some b => by_cases hb : b = '-' <;> simp [hb, CLI.cache, h1, h2]
    · simp [CLI.cache, h1, h2]

/-- The loop reads and writes only the cached pair: its outcome does not depend on
`Args`, `Commands`, `Ui` or `once`, nor on the type of the commands. -/
theorem processArgsLoop_cache {C1 C2 : Type} (args : List String) :
    ∀ (c1 : CLI C1) (c2 : CLI C2), c1.cache = c2.cache →
      (processArgsLoop c1 args).map CLI.cache = (processArgsLoop c2 args).map CLI.cache := by
  induction args with
  | nil => intro c1 c2 h; simpa [processArgsLoop] using h
  | cons a rest ih =>
    intro c1 c2 h
    have h1 := processArg_cache c1 c2 a h
    simp only [processArgsLoop]
    cases e1 : processArg c1 a with
    | none =>
      cases e2 : processArg c2 a with
      | none => rfl
      | some d2 => rw [e1, e2] at h1; cases h1
    | some d1 =>
      cases e2 : processArg c2 a with
      | none => rw [e1, e2] at h1; cases h1
      | some d2 =>
        rw [e1, e2] at h1
        exact ih d1 d2 (by simpa using h1)

/-! ## Lemmas on the once-guard and on the exported operations -/

theorem onceDo_computed {c : CLI Command} (h : c.once = true) : c.onceDo = some c := by
  simp [CLI.onceDo, h]

theorem onceDo_once {c c' : CLI Command} (h : c.onceDo = some c') : c'.once = true := by
  unfold CLI.onceDo at h
  split at h
  · next hc => cases h; exact hc
  · split at h
    · cases h
    · cases h; rfl

/-- The guarded call changes nothing but the guard and the two cached fields. -/
theorem onceDo_frame {c c' : CLI Command} (h : c.onceDo = some c') :
    c'.Args = c.Args ∧ c'.Commands = c.Commands ∧ c'.Ui = c.Ui := by
  unfold CLI.onceDo at h
  split at h
  · cases h; simp
  · split at h
    · cases h
    · next d hd =>
      cases h
      have f := processArgsLoop_frame hd
      exact ⟨f.1, f.2.1, f.2.2.1⟩

theorem printHelp_Ui (c : CLI Command) : c.printHelp.Ui = c.Ui ++ helpBanner := by
  simp [CLI.printHelp, Ui.Error, helpBanner]

theorem lookup_isSome_iff (commands : List (String × CommandFactory Command)) (name : String) :
    (commands.lookup name).isSome = true ↔ registered commands name := by
  unfold registered
  rw [List.lookup_isSome_iff]
  constructor
  · rintro ⟨p, hp, hk⟩
    exact List.mem_map.2 ⟨p, hp, (by simpa using hk : name = p.1).symm⟩
  · intro h
    obtain ⟨p, hp, hk⟩ := List.mem_map.1 h
    exact ⟨p, hp, by simpa using hk.symm⟩

/-- The method `Run` is the guarded classification followed by the dispatch decision. -/
theorem Run_eq (c : CLI Command) : c.Run = c.onceDo.map CLI.decision := by
  unfold CLI.Run CLI.IsHelp
  cases h : c.onceDo with
  | none => rfl
  | some c1 =>
    have h1 := onceDo_computed (onceDo_once h)
    simp only [Option.map_some]
    cases hh : c1.isHelp with
    | true => simp [CLI.decision, hh]
    | false =>
      simp only [CLI.Subcommand, h1]
      cases hl : c1.Commands.lookup c1.subcommand with
      | none => simp [CLI.decision, hh, hl]
      | some f =>
        by_cases hs : c1.subcommand = "" <;> simp [CLI.decision, hh, hl, hs]

theorem helpRequested_iff (A : List String) :
    helpRequested A = true ↔ ("-h" ∈ A ∨ "--help" ∈ A) := by
  simp only [helpRequested, List.any_eq_true, isHelpFlag, decide_eq_true_eq]
  constructor
  · rintro ⟨t, ht, h | h⟩
    · exact Or.inl (h ▸ ht)
    · exact Or.inr (h ▸ ht)
  · rintro (h | h)
    · exact ⟨_, h, Or.inl rfl⟩
    · exact ⟨_, h, Or.inr rfl⟩

theorem firstPositional_not_dash (A : List String) :
    startsWithDash (firstPositional A) = false := by
  unfold firstPositional
  cases h : A.find? (fun t => !startsWithDash t) with
  | none => decide
  | some t =>
    have := List.find?_some h
    simpa using this

theorem firstPositional_ne_help (A : List String) :
    firstPositional A ≠ "-h" ∧ firstPositional A ≠ "--help" := by
  have h := firstPositional_not_dash A
  constructor <;> intro e <;> rw [e] at h <;> exact absurd h (by decide)

/-- The state left by the first guarded call on a fresh `CLI` whose tokens are all
non-empty. -/
theorem onceDo_fresh (A : List String) (commands : List (String × CommandFactory Command))
    (hA : ∀ t ∈ A, t ≠ "") :
    (CLI.fresh Command A commands).onceDo =
      some { Args := A, Commands := commands, Ui := [], once := true,
             isHelp := helpRequested A, subcommand := firstPositional A } := by
  simp [CLI.onceDo, CLI.processArgs, CLI.fresh, processArgsLoop_eq A _ hA]

/-- The result of `Run` on a fresh `CLI` whose tokens are all non-empty. -/
theorem Run_fresh (A : List String) (commands : List (String × CommandFactory Command))
    (hA : ∀ t ∈ A, t ≠ "") :
    (CLI.fresh Command A commands).Run =
      some (CLI.decision { Args := A, Commands := commands, Ui := [], once := true,
                           isHelp := helpRequested A, subcommand := firstPositional A }) := by
  rw [Run_eq, onceDo_fresh A commands hA]
  rfl

theorem decision_fst_zero_iff (c : CLI Command) :
    c.decision.1 = (0, none) ↔
      (c.isHelp = false ∧ c.subcommand ≠ "" ∧ registered c.Commands c.subcommand) := by
  rw [← lookup_isSome_iff]
  unfold CLI.decision
  split
  · next h =>
    simp only [Prod.mk.injEq, one_ne_zero, and_true, false_iff, not_and]
    intro h1 h2 h3
    rcases h with h | h | h
    · rw [h1] at h; cases h
    · rw [h3] at h; cases h
    · exact h2 h
  · next h =>
    simp only [not_or] at h
    simp only [true_iff]
    refine ⟨by simpa using h.1, h.2.2, by simpa using h.2.1⟩

theorem decision_fst_cases (c : CLI Command) :
    c.decision.1 = (0, none) ∨ c.decision.1 = (1, none) := by
  unfold CLI.decision
  split
  · exact Or.inr rfl
  · exact Or.inl rfl

theorem decision_Ui (c : CLI Command) :
    (c.decision.1 = (0, none) ∧ c.decision.2 = c) ∨
      (c.decision.1 = (1, none) ∧ c.decision.2 = c.printHelp) := by
  unfold CLI.decision
  split
  · exact Or.inr ⟨rfl, rfl⟩
  · exact Or.inl ⟨rfl, rfl⟩

/-- Whenever the loop returns, the help field records exactly the help flags seen. -/
theorem processArgsLoop_isHelp (args : List String) :
    ∀ {c c' : CLI Command}, processArgsLoop c args = some c' →
      c'.isHelp = (c.isHelp || helpRequested args) := by
  induction args with
  | nil =>
    intro c c' h
    simp only [processArgsLoop, Option.some.injEq] at h
    subst h
    simp [helpRequested]
  | cons a rest ih =>
    intro c c' h
    simp only [processArgsLoop] at h
    cases h1 : processArg c a with
    | none => rw [h1] at h; cases h
    | some c1 =>
      rw [h1] at h
      rw [ih h]
      cases hh : isHelpFlag a with
      | true =>
        rw [processArg_help c hh] at h1
        cases h1
        simp [helpRequested, hh]
      | false =>
        have hc1 : c1.isHelp = c.isHelp := by
          unfold processArg at h1
          split at h1
          · next hx => simp [isHelpFlag, hx] at hh
          · split at h1
            · split at h1
              · cases h1
              · split at h1 <;> cases h1 <;> rfl
            · cases h1; rfl
        simp [helpRequested, hh, hc1]

/-- A help flag anywhere in a list of non-empty tokens makes `Run` print the help and
return `(1, nil)`, whatever the registry holds. -/
theorem Run_help_precedence (A : List String)
    (commands : List (String × CommandFactory Command)) (hA : ∀ t ∈ A, t ≠ "")
    (hh : "-h" ∈ A ∨ "--help" ∈ A) :
    ∃ c', (CLI.fresh Command A commands).Run = some ((1, none), c') ∧ c'.Ui = helpBanner := by
  rw [Run_fresh A commands hA]
  have h := (helpRequested_iff A).2 hh
  have hd : ∀ c : CLI Command, c.isHelp = true → c.decision = ((1, none), c.printHelp) := by
    intro c hc
    simp [CLI.decision, hc]
  exact ⟨_, congrArg some (hd _ h), by simp [printHelp_Ui]⟩

/-- A help flag anywhere in an argument list, empty tokens allowed, keeps `Run` from
returning exit code 0. -/
theorem Run_help_never_zero (A : List String)
    (commands : List (String × CommandFactory Command))
    (hh : "-h" ∈ A ∨ "--help" ∈ A) (e : Option String) (c' : CLI Command) :
    (CLI.fresh Command A commands).Run ≠ some ((0, e), c') := by
  intro hR
  rw [Run_eq] at hR
  cases ho : (CLI.fresh Command A commands).onceDo with
  | none => rw [ho] at hR; cases hR
  | some c1 =>
    rw [ho] at hR
    have hR' : c1.decision = ((0, e), c') := Option.some.inj hR
    have hc1 : c1.isHelp = true := by
      simp only [CLI.onceDo, CLI.fresh, CLI.processArgs, Bool.false_eq_true, if_false] at ho
      split at ho
      · cases ho
      · next d hd =>
        cases ho
        have := processArgsLoop_isHelp A hd
        simpa [(helpRequested_iff A).2 hh] using this
    simp [CLI.decision, hc1] at hR'

/-- The dispatch decision changes nothing but the sink. -/
theorem decision_frame (c : CLI Command) :
    c.decision.2.Args = c.Args ∧ c.decision.2.Commands = c.Commands ∧
      c.decision.2.once = c.once ∧ c.decision.2.isHelp = c.isHelp ∧
      c.decision.2.subcommand = c.subcommand := by
  rcases decision_Ui c with h | h <;> rw [h.2] <;> simp [CLI.printHelp]

theorem IsHelp_computed {c : CLI Command} (h : c.once = true) :
    c.IsHelp = some (c.isHelp, c) := by
  simp [CLI.IsHelp, onceDo_computed h]

theorem Subcommand_computed {c : CLI Command} (h : c.once = true) :
    c.Subcommand = some (c.subcommand, c) := by
  simp [CLI.Subcommand, onceDo_computed h]

theorem Run_computed {c : CLI Command} (h : c.once = true) : c.Run = some c.decision := by
  simp [Run_eq, onceDo_computed h]

/-- The answers depend on the cached pair and on the registry only. -/
theorem answer_congr {c d : CLI Command} (h1 : d.isHelp = c.isHelp)
    (h2 : d.subcommand = c.subcommand) (h3 : d.Commands = c.Commands) :
    d.answer = c.answer := by
  have hd : d.decision.1 = c.decision.1 := by
    unfold CLI.decision
    rw [h1, h2, h3]
    split <;> rfl
  funext op
  cases op
  · simp [CLI.answer, h1]
  · simp [CLI.answer, h2]
  · simp [CLI.answer, hd]

/-- On a computed state every operation returns the cached answer and keeps the cache. -/
theorem call_computed {c : CLI Command} (h : c.once = true) (op : Op) :
    ∃ c', c.call op = some (c.answer op, c') ∧ c'.once = true ∧ c'.isHelp = c.isHelp ∧
      c'.subcommand = c.subcommand ∧ c'.Commands = c.Commands := by
  cases op with
  | isHelp => exact ⟨c, by simp [CLI.call, IsHelp_computed h, CLI.answer], h, rfl, rfl, rfl⟩
  | subcommand =>
    exact ⟨c, by simp [CLI.call, Subcommand_computed h, CLI.answer], h, rfl, rfl, rfl⟩
  | run =>
    have f := decision_frame c
    exact ⟨c.decision.2, by simp [CLI.call, Run_computed h, CLI.answer], f.2.2.1.trans h,
      f.2.2.2.1, f.2.2.2.2, f.2.1⟩

/-- Every operation that returns leaves the guard set. -/
theorem call_once {c c' : CLI Command} {op : Op} {r : Ret} (h : c.call op = some (r, c')) :
    c'.once = true := by
  cases op with
  | isHelp =>
    simp only [CLI.call, CLI.IsHelp] at h
    cases ho : c.onceDo with
    | none => rw [ho] at h; cases h
    | some d => rw [ho] at h; cases h; exact onceDo_once ho
  | subcommand =>
    simp only [CLI.call, CLI.Subcommand] at h
    cases ho : c.onceDo with
    | none => rw [ho] at h; cases h
    | some d => rw [ho] at h; cases h; exact onceDo_once ho
  | run =>
    simp only [CLI.call, Run_eq] at h
    cases ho : c.onceDo with
    | none => rw [ho] at h; cases h
    | some d =>
      rw [ho] at h
      cases h
      exact (decision_frame d).2.2.1.trans (onceDo_once ho)

/-- The first operation on a state runs the classification; it then behaves as on the
classified state. -/
theorem call_eq_of_onceDo {c c0 : CLI Command} (h : c.onceDo = some c0) (op : Op) :
    c.call op = c0.call op := by
  have h0 := onceDo_computed (onceDo_once h)
  cases op <;> simp [CLI.call, CLI.IsHelp, CLI.Subcommand, Run_eq, h, h0]

/-- On a computed state every sequence of operations returns the cached answers. -/
theorem calls_computed (ops : List Op) :
    ∀ c : CLI Command, c.once = true →
      ∃ c', c.calls ops = some (ops.map c.answer, c') ∧ c'.isHelp = c.isHelp ∧
        c'.subcommand = c.subcommand := by
  induction ops with
  | nil => intro c _; exact ⟨c, rfl, rfl, rfl⟩
  | cons op rest ih =>
    intro c hc
    obtain ⟨c1, e1, o1, i1, s1, m1⟩ := call_computed hc op
    obtain ⟨c2, e2, i2, s2⟩ := ih c1 o1
    refine ⟨c2, ?_, i2.trans i1, s2.trans s1⟩
    simp only [CLI.calls, e1, e2, List.map_cons, answer_congr i1 s1 m1]

/-- The guarded call reads only the guard, `Args` and the cached pair. -/
theorem onceDo_cache {C1 C2 : Type} (c1 : CLI C1) (c2 : CLI C2) (ho : c1.once = c2.once)
    (ha : c1.Args = c2.Args) (hc : c1.cache = c2.cache) :
    c1.onceDo.map CLI.cache = c2.onceDo.map CLI.cache := by
  have hl := processArgsLoop_cache c1.Args c1 c2 hc
  unfold CLI.onceDo CLI.processArgs
  rw [← ho, ← ha]
  cases c1.once with
  | true => simpa using hc
  | false =>
    simp only [Bool.false_eq_true, if_false]
    cases e1 : processArgsLoop c1 c1.Args with
    | none =>
      cases e2 : processArgsLoop c2 c1.Args with
      | none => rfl
      | some d2 => rw [e1, e2] at hl; cases hl
    | some d1 =>
      cases e2 : processArgsLoop c2 c1.Args with
      | none => rw [e1, e2] at hl; cases hl
      | some d2 =>
        rw [e1, e2] at hl
        simpa [CLI.cache] using hl

/-- The dispatch decision reads the registry through its key set only. -/
theorem decision_observe {C1 C2 : Type} (d1 : CLI C1) (d2 : CLI C2) (hc : d1.cache = d2.cache)
    (hu : d1.Ui = d2.Ui) (hk : ∀ k, registered d1.Commands k ↔ registered d2.Commands k) :
    CLI.observe d1.decision = CLI.observe d2.decision := by
  simp only [CLI.cache, Prod.mk.injEq] at hc
  have hl : (d1.Commands.lookup d1.subcommand).isSome =
      (d2.Commands.lookup d2.subcommand).isSome := by
    rw [Bool.eq_iff_iff, lookup_isSome_iff, lookup_isSome_iff, hc.2]
    exact hk _
  unfold CLI.decision
  rw [hl, hc.1, hc.2]
  split
  · simp [CLI.observe, printHelp_Ui, hu]
  · simp [CLI.observe, hu]

/-- Idempotent queries, for argument lists whose classification returns.  With the
once-guard as the explicit state `once`: every operation that returns leaves the guard
set; on a state whose guard is set every operation returns the cached answer and changes
neither `isHelp` nor `subcommand`; hence, when the classification of `Args` gives `c0`,
every sequence of calls of `IsHelp()`, `Subcommand()` and `Run()` on one fresh `CLI`
returns, call by call, the answers read off `c0`. -/
theorem queries_idempotent (A : List String)
    (commands : List (String × CommandFactory Command)) (c0 : CLI Command)
    (h0 : (CLI.fresh Command A commands).processArgs = some c0) (ops : List Op) :
    (∃ c', (CLI.fresh Command A commands).calls ops = some (ops.map c0.answer, c')) ∧
    (∀ (c c' : CLI Command) (op : Op) (r : Ret), c.call op = some (r, c') →
      c'.once = true) ∧
    (∀ (c : CLI Command) (op : Op), c.once = true →
      ∃ c', c.call op = some (c.answer op, c') ∧ c'.once = true ∧
        c'.isHelp = c.isHelp ∧ c'.subcommand = c.subcommand) := by
  refine ⟨?_, fun c c' op r h => call_once h, ?_⟩
  · have h1 : (CLI.fresh Command A commands).onceDo = some { c0 with once := true } := by
      simp only [CLI.onceDo, h0]
      rfl
    have ha : ({ c0 with once := true } : CLI Command).answer = c0.answer :=
      answer_congr rfl rfl rfl
    cases ops with
    | nil => exact ⟨_, rfl⟩
    | cons op rest =>
      obtain ⟨c', hc', _⟩ := calls_computed (op :: rest) { c0 with once := true } rfl
      refine ⟨c', ?_⟩
      rw [ha] at hc'
      rw [← hc']
      simp only [CLI.calls, call_eq_of_onceDo h1 op]
  · intro c op hc
    obtain ⟨c', h1, h2, h3, h4, _⟩ := call_computed hc op
    exact ⟨c', h1, h2, h3, h4⟩

/-- Six calls on a fresh `CLI` with arguments `["-x", "up", "--help"]` return the cached
answers. -/
theorem queries_idempotent_witness :
    ∃ c', (CLI.fresh Unit ["-x", "up", "--help"] []).calls
        [Op.isHelp, Op.subcommand, Op.run, Op.subcommand, Op.isHelp, Op.run] =
      some ([Ret.bool true, Ret.str "up", Ret.exit 1 none, Ret.str "up", Ret.bool true,
        Ret.exit 1 none], c') :=
  (queries_idempotent ["-x", "up", "--help"] []
    { Args := ["-x", "up", "--help"], Commands := [], Ui := [], once := false,
      isHelp := true, subcommand := "up" } rfl
    [Op.isHelp, Op.subcommand, Op.run, Op.subcommand, Op.isHelp, Op.run]).1

/-! ## Lemmas on repeated classification and on inserted flags -/

/-- The state left by the classification pass on a fresh `CLI` whose tokens are all
non-empty. -/
theorem processArgs_fresh (A : List String)
    (commands : List (String × CommandFactory Command)) (hA : ∀ t ∈ A, t ≠ "") :
    (CLI.fresh Command A commands).processArgs =
      some { Args := A, Commands := commands, Ui := [], once := false,
             isHelp := helpRequested A, subcommand := firstPositional A } := by
  simp [CLI.processArgs, CLI.fresh, processArgsLoop_eq A _ hA]

/-- A second classification pass over non-empty tokens, started from the fields the
first pass left, gives the same state. -/
theorem processArgs_again (A : List String)
    (commands : List (String × CommandFactory Command)) (u : List String) (o : Bool)
    (hA : ∀ t ∈ A, t ≠ "") :
    CLI.processArgs
        ({ Args := A, Commands := commands, Ui := u, once := o,
           isHelp := helpRequested A, subcommand := firstPositional A } : CLI Command) =
      some { Args := A, Commands := commands, Ui := u, once := o,
             isHelp := helpRequested A, subcommand := firstPositional A } := by
  simp [CLI.processArgs, processArgsLoop_eq A _ hA]

theorem startsWithDash_ne_empty {f : String} (hf : startsWithDash f = true) : f ≠ "" := by
  intro h
  rw [h] at hf
  exact absurd hf (by decide)

theorem helpRequested_insert (X Y : List String) {f : String} (hf : isHelpFlag f = false) :
    helpRequested (X ++ f :: Y) = helpRequested (X ++ Y) := by
  simp [helpRequested, hf]

theorem firstPositional_insert (X Y : List String) {f : String}
    (hf : startsWithDash f = true) :
    firstPositional (X ++ f :: Y) = firstPositional (X ++ Y) := by
  simp [firstPositional, hf]

theorem mem_insertAt {A : List String} {i : Nat} {f t : String} (h : t ∈ insertAt A i f) :
    t = f ∨ t ∈ A := by
  simp only [insertAt, List.mem_append, List.mem_cons] at h
  rcases h with h | h | h
  · exact Or.inr (List.mem_of_mem_take h)
  · exact Or.inl h
  · exact Or.inr (List.mem_of_mem_drop h)

end Lemmas

/-! ## The claims -/

section Claims

variable {Command : Type}

/-- C1. For every argument list whose tokens are all non-empty, `Subcommand()` on a fresh
`CLI` returns the first token, in list order, that does not start with `'-'`, and the
empty string when there is no such token; the returned string is never a help flag. -/
theorem Subcommand_returns_first_positional (A : List String)
    (commands : List (String × CommandFactory Command)) (hA : ∀ t ∈ A, t ≠ "") :
    (CLI.fresh Command A commands).Subcommand.map Prod.fst =
        some ((A.find? (fun t => !startsWithDash t)).getD "") ∧
      ∀ s, (CLI.fresh Command A commands).Subcommand.map Prod.fst = some s →
        s ≠ "-h" ∧ s ≠ "--help" := by
  have h : (CLI.fresh Command A commands).Subcommand.map Prod.fst = some (firstPositional A) := by
    simp [CLI.Subcommand, onceDo_fresh A commands hA]
  refine ⟨h, ?_⟩
  intro s hs
  rw [h] at hs
  cases hs
  exact firstPositional_ne_help A

/-- Witness for C1: the three argument lists named in the claim. -/
theorem Subcommand_returns_first_positional_witness :
    ((∀ t ∈ ["-x", "up"], t ≠ "") ∧
      (CLI.fresh Unit ["-x", "up"] []).Subcommand.map Prod.fst = some "up") ∧
    ((∀ t ∈ ["--version", "version", "--help"], t ≠ "") ∧
      (CLI.fresh Unit ["--version", "version", "--help"] []).Subcommand.map
        Prod.fst = some "version") ∧
    ((∀ t ∈ ([] : List String), t ≠ "") ∧
      (CLI.fresh Unit [] []).Subcommand.map Prod.fst = some "") :=
  ⟨⟨by decide, (Subcommand_returns_first_positional ["-x", "up"] [] (by decide)).1⟩,
   ⟨by decide,
    (Subcommand_returns_first_positional ["--version", "version", "--help"] []
      (by decide)).1⟩,
   ⟨by decide, (Subcommand_returns_first_positional [] [] (by decide)).1⟩⟩

/-- C2. For every argument list whose tokens are all non-empty, `IsHelp()` on a fresh
`CLI` returns `true` if and only if some token is exactly `-h` or `--help`, at any
position. -/
theorem IsHelp_iff_help_flag (A : List String)
    (commands : List (String × CommandFactory Command)) (hA : ∀ t ∈ A, t ≠ "") :
    (CLI.fresh Command A commands).IsHelp.map Prod.fst = some (decide ("-h" ∈ A ∨ "--help" ∈ A)) := by
  have h : (CLI.fresh Command A commands).IsHelp.map Prod.fst = some (helpRequested A) := by
    simp [CLI.IsHelp, onceDo_fresh A commands hA]
  rw [h]
  congr 1
  rw [Bool.eq_iff_iff]
  simpa using helpRequested_iff A

/-- Witness for C2: a help flag after the subcommand counts, a help flag before it
counts, and the near-misses `--help=x`, `-hv`, `-help`, `help` do not. -/
theorem IsHelp_iff_help_flag_witness :
    ((∀ t ∈ ["up", "-h"], t ≠ "") ∧
      (CLI.fresh Unit ["up", "-h"] []).IsHelp.map Prod.fst = some true) ∧
    ((∀ t ∈ ["--help", "up"], t ≠ "") ∧
      (CLI.fresh Unit ["--help", "up"] []).IsHelp.map Prod.fst = some true) ∧
    ((∀ t ∈ ["--help=x", "-hv", "-help", "help"], t ≠ "") ∧
      (CLI.fresh Unit ["--help=x", "-hv", "-help", "help"] []).IsHelp.map
        Prod.fst = some false) :=
  ⟨⟨by decide, IsHelp_iff_help_flag ["up", "-h"] [] (by decide)⟩,
   ⟨by decide, IsHelp_iff_help_flag ["--help", "up"] [] (by decide)⟩,
   ⟨by decide, IsHelp_iff_help_flag ["--help=x", "-hv", "-help", "help"] [] (by decide)⟩⟩

/-- C3. For every registry and every argument list of non-empty tokens, `Run()` returns
`(0, nil)` exactly when `IsHelp()` is false, `Subcommand()` is not the empty string and
`Subcommand()` is a key of `Commands`; in every other case it returns `(1, nil)`.  In
particular an empty resolved subcommand gives exit code 1 whatever the registry holds. -/
theorem Run_exit_code (A : List String) (commands : List (String × CommandFactory Command))
    (hA : ∀ t ∈ A, t ≠ "") :
    (((CLI.fresh Command A commands).IsHelp.map Prod.fst = some false ∧
        ∃ s, (CLI.fresh Command A commands).Subcommand.map Prod.fst = some s ∧ s ≠ "" ∧
          registered commands s) →
      (CLI.fresh Command A commands).Run.map Prod.fst = some (0, none)) ∧
    (¬ ((CLI.fresh Command A commands).IsHelp.map Prod.fst = some false ∧
        ∃ s, (CLI.fresh Command A commands).Subcommand.map Prod.fst = some s ∧ s ≠ "" ∧
          registered commands s) →
      (CLI.fresh Command A commands).Run.map Prod.fst = some (1, none)) ∧
    ((CLI.fresh Command A commands).Subcommand.map Prod.fst = some "" →
      (CLI.fresh Command A commands).Run.map Prod.fst = some (1, none)) := by
  have hI : (CLI.fresh Command A commands).IsHelp.map Prod.fst = some (helpRequested A) := by
    simp [CLI.IsHelp, onceDo_fresh A commands hA]
  have hS : (CLI.fresh Command A commands).Subcommand.map Prod.fst = some (firstPositional A) := by
    simp [CLI.Subcommand, onceDo_fresh A commands hA]
  have hR := Run_fresh A commands hA
  have hz := decision_fst_zero_iff
    ({ Args := A, Commands := commands, Ui := [], once := true,
       isHelp := helpRequested A, subcommand := firstPositional A } : CLI Command)
  have hc := decision_fst_cases
    ({ Args := A, Commands := commands, Ui := [], once := true,
       isHelp := helpRequested A, subcommand := firstPositional A } : CLI Command)
  simp only at hz
  rw [hI, hS, hR]
  refine ⟨?_, ?_, ?_⟩
  · rintro ⟨h1, s, h2, h3, h4⟩
    cases h2
    exact congrArg some (hz.2 ⟨Option.some.inj h1, h3, h4⟩)
  · intro hn
    rcases hc with h0 | h1
    · exact absurd
        ⟨congrArg some (hz.1 h0).1, _, rfl, (hz.1 h0).2.1, (hz.1 h0).2.2⟩ hn
    · exact congrArg some h1
  · intro he
    rcases hc with h0 | h1
    · exact absurd (Option.some.inj he) (hz.1 h0).2.1
    · exact congrArg some h1

/-- Witness for C3: registry `{"up"}` with `["up", "--flag"]` gives 0, with `["down"]`
gives 1, and with `[]` gives 1. -/
theorem Run_exit_code_witness :
    ((∀ t ∈ ["up", "--flag"], t ≠ "") ∧
      (CLI.fresh Unit ["up", "--flag"]
        [("up", fun _ => Except.ok ())]).Run.map Prod.fst = some (0, none)) ∧
    ((∀ t ∈ ["down"], t ≠ "") ∧
      (CLI.fresh Unit ["down"]
        [("up", fun _ => Except.ok ())]).Run.map Prod.fst = some (1, none)) ∧
    ((∀ t ∈ ([] : List String), t ≠ "") ∧
      (CLI.fresh Unit [] [("up", fun _ => Except.ok ())]).Run.map Prod.fst =
        some (1, none)) :=
  ⟨⟨by decide,
    (Run_exit_code ["up", "--flag"] [("up", fun _ => Except.ok ())] (by decide)).1
      ⟨by decide, "up", by decide, by decide, by simp [registered]⟩⟩,
   ⟨by decide,
    (Run_exit_code ["down"] [("up", fun _ => Except.ok ())] (by decide)).2.1
      (by
        rintro ⟨_, s, hs, _, hr⟩
        have hs' : some "down" = some s := hs
        cases hs'
        simp [registered] at hr)⟩,
   ⟨by decide,
    (Run_exit_code [] [("up", fun _ => Except.ok ())] (by decide)).2.2 (by decide)⟩⟩

/-- C4. The claim that classification never faults fails on the code: with the
zero-length token as the only argument, or after a flag, `arg[0]` is evaluated on a
string of length zero, so `processArgs` panics and with it `IsHelp()`, `Subcommand()`
and `Run()`; only a zero-length token that follows the subcommand is skipped. -/
theorem zero_length_token_panics :
    (CLI.fresh Unit [""] []).processArgs = none ∧
    (CLI.fresh Unit [""] []).IsHelp = none ∧
    (CLI.fresh Unit [""] []).Subcommand = none ∧
    (CLI.fresh Unit [""] []).Run = none ∧
    (CLI.fresh Unit ["-v", ""] []).Subcommand = none ∧
    (CLI.fresh Unit ["up", ""] []).Subcommand.map Prod.fst = some "up" := by
  refine ⟨rfl, rfl, rfl, rfl, rfl, rfl⟩

/-- C5. The claim that help takes precedence on every argument list fails on the code at
`["", "--help", "up"]` with `up` registered: a help flag and a registered name both
appear, but `Run()` panics on the zero-length token instead of returning exit code 1,
and the sink receives nothing. -/
theorem help_precedence_panics :
    ("--help" ∈ ["", "--help", "up"] ∧
      registered [("up", (fun _ => Except.ok () : CommandFactory Unit))] "up" ∧
      "up" ∈ ["", "--help", "up"]) ∧
    (CLI.fresh Unit ["", "--help", "up"]
      [("up", fun _ => Except.ok ())]).Run = none := by
  refine ⟨⟨by decide, by simp [registered], by decide⟩, rfl⟩

/-- C6. The first non-flag token wins and is never overwritten: when the tokens of `A`
are non-empty and `Subcommand()` over `A` is non-empty, `Subcommand()` over `A ++ B`
returns the same string, whatever tokens `B` contains. -/
theorem Subcommand_append (A B : List String)
    (commands : List (String × CommandFactory Command)) (hA : ∀ t ∈ A, t ≠ "")
    (hne : (CLI.fresh Command A commands).Subcommand.map Prod.fst ≠ some "") :
    ∃ s, s ≠ "" ∧ (CLI.fresh Command A commands).Subcommand.map Prod.fst = some s ∧
      (CLI.fresh Command (A ++ B) commands).Subcommand.map Prod.fst = some s := by
  have hS : (CLI.fresh Command A commands).Subcommand.map Prod.fst = some (firstPositional A) := by
    simp [CLI.Subcommand, onceDo_fresh A commands hA]
  have hs : firstPositional A ≠ "" := by
    intro h
    rw [hS, h] at hne
    exact hne rfl
  refine ⟨firstPositional A, hs, hS, ?_⟩
  have hAB : processArgsLoop (CLI.fresh Command (A ++ B) commands) (A ++ B) =
      some { CLI.fresh Command (A ++ B) commands with
        isHelp := helpRequested A || helpRequested B
        subcommand := firstPositional A } := by
    rw [processArgsLoop_append, processArgsLoop_eq A _ hA]
    simp only [CLI.fresh, Bool.false_or, if_true]
    rw [processArgsLoop_set B _ hs]
  simp only [CLI.Subcommand, CLI.onceDo, CLI.processArgs]
  simp only [CLI.fresh, Bool.false_eq_true, if_false] at hAB ⊢
  rw [hAB]
  rfl

/-- Witness for C6: `up` stays the subcommand when further positional tokens, flags, a
help flag and a zero-length token follow. -/
theorem Subcommand_append_witness :
    (∀ t ∈ ["-x", "up"], t ≠ "") ∧
    (CLI.fresh Unit ["-x", "up"] []).Subcommand.map Prod.fst ≠ some "" ∧
    ∃ s, s ≠ "" ∧ (CLI.fresh Unit ["-x", "up"] []).Subcommand.map Prod.fst =
        some s ∧
      (CLI.fresh Unit (["-x", "up"] ++ ["down", "-y", "--help", ""])
        []).Subcommand.map Prod.fst = some s :=
  ⟨by decide, by decide,
   Subcommand_append ["-x", "up"] ["down", "-y", "--help", ""] [] (by decide) (by decide)⟩

/-- C7. The claim that every `IsHelp()` call in a sequence returns the same boolean,
equal to the classification of `Args`, fails on the code at `Args = ["", "--help"]`:
the first query, whichever it is, panics in `processArgs` on `arg[0]` of the
zero-length token and returns no value.  The panic comes on the first token, before
any field is written, and `sync.Once` counts the panicking call as done; on the state
this leaves (guard set, `isHelp` false, `subcommand` empty) a later `IsHelp()` returns
`false` although `--help` is in `Args`, and a later `Run()` returns exit code 1. -/
theorem queries_after_panic :
    (CLI.fresh Unit ["", "--help"] []).calls [Op.isHelp] = none ∧
    (CLI.fresh Unit ["", "--help"] []).calls [Op.subcommand] = none ∧
    (CLI.fresh Unit ["", "--help"] []).calls [Op.run] = none ∧
    (CLI.fresh Unit ["", "--help"] []).calls [Op.isHelp, Op.isHelp] = none ∧
    helpRequested ["", "--help"] = true ∧
    (CLI.IsHelp
      ({ Args := ["", "--help"], Commands := [], Ui := [], once := true, isHelp := false,
         subcommand := "" } : CLI Unit)).map Prod.fst = some false ∧
    (CLI.Run
      ({ Args := ["", "--help"], Commands := [], Ui := [], once := true, isHelp := false,
         subcommand := "" } : CLI Unit)).map Prod.fst = some (1, none) := by
  refine ⟨rfl, rfl, rfl, rfl, rfl, rfl, rfl⟩

/-- C8. The help output is a fixed banner: whenever `Run()` returns exit code 1 the
error is nil and the sink has received exactly two more `Error` calls, the usage line and
then the line "Available commands are:", whatever the arguments and the registry. -/
theorem Run_help_banner (c : CLI Command) (e : Option String) (c' : CLI Command)
    (h : c.Run = some ((1, e), c')) :
    e = none ∧
      c'.Ui = c.Ui ++
        ["usage: serf [--version] [--help] <command> [<args>]\n", "Available commands are:"] := by
  rw [Run_eq] at h
  cases ho : c.onceDo with
  | none => rw [ho] at h; cases h
  | some d =>
    rw [ho] at h
    have hd : d.decision = ((1, e), c') := Option.some.inj h
    have hu := (onceDo_frame ho).2.2
    rcases decision_Ui d with ⟨h1, _⟩ | ⟨h1, h2⟩
    · rw [hd] at h1; cases h1
    · rw [hd] at h1 h2
      cases h1
      simp only at h2
      rw [h2, printHelp_Ui, hu]
      exact ⟨rfl, rfl⟩

/-- Witness for C8: help requested with a registered subcommand, no subcommand, and an
unregistered subcommand all give the same two calls. -/
theorem Run_help_banner_witness :
    (∃ c', (CLI.fresh Unit ["--help", "up"]
        [("up", fun _ => Except.ok ())]).Run = some ((1, none), c') ∧
      c'.Ui = ["usage: serf [--version] [--help] <command> [<args>]\n",
        "Available commands are:"]) ∧
    (∃ c', (CLI.fresh Unit [] [("up", fun _ => Except.ok ())]).Run =
        some ((1, none), c') ∧
      c'.Ui = ["usage: serf [--version] [--help] <command> [<args>]\n",
        "Available commands are:"]) ∧
    (∃ c', (CLI.fresh Unit ["down"] [("up", fun _ => Except.ok ())]).Run =
        some ((1, none), c') ∧
      c'.Ui = ["usage: serf [--version] [--help] <command> [<args>]\n",
        "Available commands are:"]) :=
  ⟨⟨_, rfl,
    (Run_help_banner
      (CLI.fresh Unit ["--help", "up"] [("up", fun _ => Except.ok ())]) none
      { Args := ["--help", "up"], Commands := [("up", fun _ => Except.ok ())],
        Ui := helpBanner, once := true, isHelp := true, subcommand := "up" } rfl).2⟩,
   ⟨_, rfl,
    (Run_help_banner
      (CLI.fresh Unit [] [("up", fun _ => Except.ok ())]) none
      { Args := [], Commands := [("up", fun _ => Except.ok ())],
        Ui := helpBanner, once := true, isHelp := false, subcommand := "" } rfl).2⟩,
   ⟨_, rfl,
    (Run_help_banner
      (CLI.fresh Unit ["down"] [("up", fun _ => Except.ok ())]) none
      { Args := ["down"], Commands := [("up", fun _ => Except.ok ())],
        Ui := helpBanner, once := true, isHelp := false, subcommand := "down" } rfl).2⟩⟩

/-- C9. Writing to the sink happens only on the help paths: `IsHelp()` and
`Subcommand()` leave the sink as it was, and so does a `Run()` that returns exit
code 0; every operation leaves `Args` and `Commands` unchanged. -/
theorem operations_frame (c : CLI Command) :
    (∀ b c', c.IsHelp = some (b, c') →
      c'.Ui = c.Ui ∧ c'.Args = c.Args ∧ c'.Commands = c.Commands) ∧
    (∀ s c', c.Subcommand = some (s, c') →
      c'.Ui = c.Ui ∧ c'.Args = c.Args ∧ c'.Commands = c.Commands) ∧
    (∀ r c', c.Run = some (r, c') →
      (r.1 = 0 → c'.Ui = c.Ui) ∧ c'.Args = c.Args ∧ c'.Commands = c.Commands) := by
  refine ⟨?_, ?_, ?_⟩
  · intro b c' h
    simp only [CLI.IsHelp] at h
    cases ho : c.onceDo with
    | none => rw [ho] at h; cases h
    | some d =>
      rw [ho] at h
      cases h
      have f := onceDo_frame ho
      exact ⟨f.2.2, f.1, f.2.1⟩
  · intro s c' h
    simp only [CLI.Subcommand] at h
    cases ho : c.onceDo with
    | none => rw [ho] at h; cases h
    | some d =>
      rw [ho] at h
      cases h
      have f := onceDo_frame ho
      exact ⟨f.2.2, f.1, f.2.1⟩
  · intro r c' h
    rw [Run_eq] at h
    cases ho : c.onceDo with
    | none => rw [ho] at h; cases h
    | some d =>
      rw [ho] at h
      have hd : d.decision = (r, c') := Option.some.inj h
      have f := onceDo_frame ho
      have g := decision_frame d
      rw [hd] at g
      refine ⟨?_, g.1.trans f.1, g.2.1.trans f.2.1⟩
      intro hr
      rcases decision_Ui d with ⟨_, h2⟩ | ⟨h1, _⟩
      · rw [hd] at h2
        exact (congrArg CLI.Ui h2).trans f.2.2
      · rw [hd] at h1
        have hr1 : r = (1, none) := h1
        subst hr1
        exact absurd hr (by decide)

/-- Witness for C9: a dispatching run on a fresh `CLI` leaves the sink without a call,
and so do the two queries. -/
theorem operations_frame_witness :
    (∃ c', (CLI.fresh Unit ["up", "--flag"]
        [("up", fun _ => Except.ok ())]).Run = some ((0, none), c') ∧ c'.Ui = []) ∧
    (∃ c', (CLI.fresh Unit ["--help"] []).IsHelp = some (true, c') ∧
      c'.Ui = [] ∧ c'.Args = ["--help"]) ∧
    (∃ c', (CLI.fresh Unit ["--help"] []).Subcommand = some ("", c') ∧
      c'.Ui = []) :=
  ⟨⟨_, rfl,
    ((operations_frame
      (CLI.fresh Unit ["up", "--flag"] [("up", fun _ => Except.ok ())])).2.2
      (0, none)
      { Args := ["up", "--flag"], Commands := [("up", fun _ => Except.ok ())], Ui := [],
        once := true, isHelp := false, subcommand := "up" } rfl).1 rfl⟩,
   ⟨_, rfl,
    ((operations_frame (CLI.fresh Unit ["--help"] [])).1 true
      { Args := ["--help"], Commands := [], Ui := [], once := true, isHelp := true,
        subcommand := "" } rfl).1,
    ((operations_frame (CLI.fresh Unit ["--help"] [])).1 true
      { Args := ["--help"], Commands := [], Ui := [], once := true, isHelp := true,
        subcommand := "" } rfl).2.1⟩,
   ⟨_, rfl,
    ((operations_frame (CLI.fresh Unit ["--help"] [])).2.1 ""
      { Args := ["--help"], Commands := [], Ui := [], once := true, isHelp := true,
        subcommand := "" } rfl).1⟩⟩

/-- C10. `Run()` depends on the registry only through its key set and never calls a
factory: two registries with the same keys, whatever their factories and whatever the
type of the commands they build, give for the same argument list the same outcome of
`Run()`: the same exit code and error and the same calls on the sink, or a panic in
both. -/
theorem Run_depends_on_keys_only {C1 C2 : Type} (A : List String)
    (m1 : List (String × CommandFactory C1)) (m2 : List (String × CommandFactory C2))
    (hk : ∀ k, registered m1 k ↔ registered m2 k) :
    (CLI.fresh C1 A m1).Run.map CLI.observe = (CLI.fresh C2 A m2).Run.map CLI.observe := by
  have hc := onceDo_cache (CLI.fresh C1 A m1) (CLI.fresh C2 A m2) rfl rfl rfl
  rw [Run_eq, Run_eq]
  cases e1 : (CLI.fresh C1 A m1).onceDo with
  | none =>
    cases e2 : (CLI.fresh C2 A m2).onceDo with
    | none => rfl
    | some d2 => rw [e1, e2] at hc; cases hc
  | some d1 =>
    cases e2 : (CLI.fresh C2 A m2).onceDo with
    | none => rw [e1, e2] at hc; cases hc
    | some d2 =>
      rw [e1, e2] at hc
      have f1 := onceDo_frame e1
      have f2 := onceDo_frame e2
      have hcache : d1.cache = d2.cache := Option.some.inj hc
      have hu : d1.Ui = d2.Ui := f1.2.2.trans f2.2.2.symm
      have hk' : ∀ k, registered d1.Commands k ↔ registered d2.Commands k := by
        intro k
        rw [f1.2.1, f2.2.1]
        exact hk k
      exact congrArg some (decision_observe d1 d2 hcache hu hk')

/-- Witness for C10: two registries with the keys `up` and `down`, in different order,
one with failing factories and one building a different type of command. -/
theorem Run_depends_on_keys_only_witness :
    (∀ k, registered
        [("up", (fun _ => Except.error "boom" : CommandFactory Unit)),
         ("down", fun _ => Except.error "boom")] k ↔
      registered
        [("down", (fun _ => Except.ok 7 : CommandFactory Nat)), ("up", fun _ => Except.ok 0)]
        k) ∧
    (CLI.fresh Unit ["up", "-v"]
        [("up", (fun _ => Except.error "boom" : CommandFactory Unit)),
         ("down", fun _ => Except.error "boom")]).Run.map CLI.observe =
      (CLI.fresh Nat ["up", "-v"]
        [("down", (fun _ => Except.ok 7 : CommandFactory Nat)),
         ("up", fun _ => Except.ok 0)]).Run.map CLI.observe :=
  ⟨by intro k; simp only [registered, List.map_cons, List.map_nil, List.mem_cons,
        List.mem_singleton, List.not_mem_nil, or_false]; exact Or.comm,
   Run_depends_on_keys_only ["up", "-v"] _ _
     (by intro k; simp only [registered, List.map_cons, List.map_nil, List.mem_cons,
        List.mem_singleton, List.not_mem_nil, or_false]; exact Or.comm)⟩

/-- C12. Classification is idempotent as a state update: for every argument list of
non-empty tokens the `processArgs` pass on a fresh `CLI` returns a state `c1`, and a
second pass started from `c1` returns `c1` again, so `isHelp` and `subcommand` are
unchanged.  The lazily cached answers of `IsHelp()` and `Subcommand()` are the fields
of the eager result `c1`, and a query on `c1`, whose guard is not set and which
therefore runs the pass once more, returns the same values. -/
theorem processArgs_idempotent (A : List String)
    (commands : List (String × CommandFactory Command)) (hA : ∀ t ∈ A, t ≠ "") :
    ∃ c1 : CLI Command,
      (CLI.fresh Command A commands).processArgs = some c1 ∧
      c1.processArgs = some c1 ∧
      (CLI.fresh Command A commands).IsHelp.map Prod.fst = some c1.isHelp ∧
      (CLI.fresh Command A commands).Subcommand.map Prod.fst = some c1.subcommand ∧
      c1.once = false ∧
      c1.IsHelp.map Prod.fst = some c1.isHelp ∧
      c1.Subcommand.map Prod.fst = some c1.subcommand := by
  have h2 := processArgs_again A commands [] false hA
  refine ⟨_, processArgs_fresh A commands hA, h2, ?_, ?_, rfl, ?_, ?_⟩
  · simp [CLI.IsHelp, onceDo_fresh A commands hA]
  · simp [CLI.Subcommand, onceDo_fresh A commands hA]
  · simp only [CLI.IsHelp, CLI.onceDo, Bool.false_eq_true, if_false, h2]
    rfl
  · simp only [CLI.Subcommand, CLI.onceDo, Bool.false_eq_true, if_false, h2]
    rfl

/-- Witness for C12: the arguments `["-x", "up", "--help", "down"]`. -/
theorem processArgs_idempotent_witness :
    (∀ t ∈ ["-x", "up", "--help", "down"], t ≠ "") ∧
    ∃ c1 : CLI Unit,
      (CLI.fresh Unit ["-x", "up", "--help", "down"] []).processArgs = some c1 ∧
      c1.processArgs = some c1 ∧
      (CLI.fresh Unit ["-x", "up", "--help", "down"] []).IsHelp.map Prod.fst =
        some c1.isHelp ∧
      (CLI.fresh Unit ["-x", "up", "--help", "down"] []).Subcommand.map Prod.fst =
        some c1.subcommand ∧
      c1.once = false ∧
      c1.IsHelp.map Prod.fst = some c1.isHelp ∧
      c1.Subcommand.map Prod.fst = some c1.subcommand :=
  ⟨by decide, processArgs_idempotent ["-x", "up", "--help", "down"] [] (by decide)⟩

/-- C13. Unrecognised flags are transparent: for every argument list `A` of non-empty
tokens and every token `f` that starts with `'-'` and is neither `-h` nor `--help`,
inserting `f` at any position of `A` changes neither the value of `IsHelp()`, nor the
value of `Subcommand()`, nor the exit code, error and sink output of `Run()`, for any
registry; all six calls return. -/
theorem unrecognised_flag_transparent (A : List String) (i : Nat) (f : String)
    (commands : List (String × CommandFactory Command)) (hA : ∀ t ∈ A, t ≠ "")
    (hf : startsWithDash f = true) (h1 : f ≠ "-h") (h2 : f ≠ "--help") :
    ∃ (b : Bool) (s : String) (r : (Int × Option String) × List String),
      (CLI.fresh Command A commands).IsHelp.map Prod.fst = some b ∧
      (CLI.fresh Command (insertAt A i f) commands).IsHelp.map Prod.fst = some b ∧
      (CLI.fresh Command A commands).Subcommand.map Prod.fst = some s ∧
      (CLI.fresh Command (insertAt A i f) commands).Subcommand.map Prod.fst = some s ∧
      (CLI.fresh Command A commands).Run.map CLI.observe = some r ∧
      (CLI.fresh Command (insertAt A i f) commands).Run.map CLI.observe = some r := by
  have hI : ∀ t ∈ insertAt A i f, t ≠ "" := by
    intro t ht
    rcases mem_insertAt ht with h | h
    · rw [h]; exact startsWithDash_ne_empty hf
    · exact hA t h
  have hflag : isHelpFlag f = false := by simp [isHelpFlag, h1, h2]
  have hh : helpRequested (insertAt A i f) = helpRequested A := by
    unfold insertAt
    rw [helpRequested_insert _ _ hflag, List.take_append_drop]
  have hp : firstPositional (insertAt A i f) = firstPositional A := by
    unfold insertAt
    rw [firstPositional_insert _ _ hf, List.take_append_drop]
  refine ⟨helpRequested A, firstPositional A,
    CLI.observe (CLI.decision (⟨A, commands, [], true, helpRequested A,
      firstPositional A⟩ : CLI Command)), ?_, ?_, ?_, ?_, ?_, ?_⟩
  · simp [CLI.IsHelp, onceDo_fresh A commands hA]
  · simp [CLI.IsHelp, onceDo_fresh _ commands hI, hh]
  · simp [CLI.Subcommand, onceDo_fresh A commands hA]
  · simp [CLI.Subcommand, onceDo_fresh _ commands hI, hp]
  · rw [Run_fresh A commands hA]
    rfl
  · rw [Run_fresh _ commands hI, hh, hp]
    exact congrArg some (decision_observe _ _ rfl rfl (fun _ => Iff.rfl))

/-- Witness for C13: the flag `-v` inserted before, inside and after `["up", "x"]` with
`up` registered; each run returns exit code 0 and writes nothing. -/
theorem unrecognised_flag_transparent_witness :
    (∀ t ∈ ["up", "x"], t ≠ "") ∧ startsWithDash "-v" = true ∧ "-v" ≠ "-h" ∧
      "-v" ≠ "--help" ∧
    (CLI.fresh Unit ["up", "x"] [("up", fun _ => Except.ok ())]).Run.map CLI.observe =
      some ((0, none), []) ∧
    (CLI.fresh Unit ["-v", "up", "x"] [("up", fun _ => Except.ok ())]).Run.map
      CLI.observe = some ((0, none), []) ∧
    ∃ (b : Bool) (s : String) (r : (Int × Option String) × List String),
      (CLI.fresh Unit ["up", "x"] [("up", fun _ => Except.ok ())]).IsHelp.map Prod.fst =
        some b ∧
      (CLI.fresh Unit (insertAt ["up", "x"] 1 "-v")
        [("up", fun _ => Except.ok ())]).IsHelp.map Prod.fst = some b ∧
      (CLI.fresh Unit ["up", "x"] [("up", fun _ => Except.ok ())]).Subcommand.map
        Prod.fst = some s ∧
      (CLI.fresh Unit (insertAt ["up", "x"] 1 "-v")
        [("up", fun _ => Except.ok ())]).Subcommand.map Prod.fst = some s ∧
      (CLI.fresh Unit ["up", "x"] [("up", fun _ => Except.ok ())]).Run.map CLI.observe =
        some r ∧
      (CLI.fresh Unit (insertAt ["up", "x"] 1 "-v")
        [("up", fun _ => Except.ok ())]).Run.map CLI.observe = some r :=
  ⟨by decide, by decide, by decide, by decide, rfl, rfl,
   unrecognised_flag_transparent ["up", "x"] 1 "-v" [("up", fun _ => Except.ok ())]
     (by decide) (by decide) (by decide) (by decide)⟩

end Claims

end Serf
